import Mathlib

/-!
Verification development for the psyoptions covered-call option program.

The repository's visible Rust sources are: the Anchor program
`programs/psy_american/src/lib.rs` (the `initialize_market` handler, the
`InitializeMarket` account constraints with their PDA seeds, and the
`OptionMarket` account layout) and the integration tests of the older
`solana_options` program (`exercise_covered_call_test.rs`,
`option_helpers.rs`).  The lifecycle processor of `solana_options`
(write / exercise / redeem) is not part of the sources, so those
operations are modelled from the specification (sections 3, 4.2, 7, 8),
with the integration-test assertions pinning the quantities they observe.
-/

/-- Error taxonomy, following spec section 7. -/
inductive OptionsError
  | InvalidParameters
  | DuplicateMarket
  | NotFound
  | MarketExpired
  | NotYetExercisable
  | NotYetExpired
  | InsufficientFunds
  | InsufficientOptionTokens
  | InsufficientQuoteAsset
  | NoEligibleWriters
  | NoRedeemableBalance
  | Unauthorized
  deriving DecidableEq, Repr

/-- Modelled from the spec: a WriterEntry of the writer registry (spec
section 3) records the writer identity and the contracts written by that
entry.  The claim-enabled flag mentioned in section 3 is not used by any
operation described in the spec and is not modelled. -/
structure WriterEntry where
  writer : Nat
  contracts : Nat
  deriving DecidableEq, Repr

/-- Modelled from the spec: the state of one option market, combining the
OptionMarket record (section 3), its collateral vault, the writer
registry, and the external token-ledger balances of the four mints
(accounts are identified by natural numbers).  `contractsWritten` and
`contractsExercised` are ghost counters recording how many contracts have
ever been written and exercised; `owedQuote` records, per writer, the
quote asset accumulated from exercises against that writer's entries
(used by redeem).  Matching the observed integration test, the market is
parameterised by `amount_per_contract` and `strike_price`, with the quote
asset owed per exercised contract equal to their product. -/
structure MarketState where
  amount_per_contract : Nat
  strike_price : Nat
  expiration : Int
  optionSupply : Nat
  writerSupply : Nat
  vaultUnderlying : Nat
  vaultQuote : Nat
  registry : List WriterEntry
  underlyingBal : Nat → Nat
  quoteBal : Nat → Nat
  optionBal : Nat → Nat
  writerTokenBal : Nat → Nat
  owedQuote : Nat → Nat
  contractsWritten : Nat
  contractsExercised : Nat

/-- Pointwise update of a ledger function. -/
def updateFn (f : Nat → Nat) (a v : Nat) : Nat → Nat :=
  fun x => if x = a then v else f x

/-- Modelled from the spec: the quote asset owed per exercised contract.
Spec section 8 and the integration test assert the exerciser's quote
account is debited `amount_per_contract * strike_price` per contract. -/
def quoteAmountPerContract (st : MarketState) : Nat :=
  st.amount_per_contract * st.strike_price

/-- Total contracts recorded in a writer registry. -/
def sumContracts : List WriterEntry → Nat
  | [] => 0
  | e :: r => e.contracts + sumContracts r

/-- Modelled from the spec: `consume_front` of the Writer Ledger (spec
section 4.4): removes or decrements entries from the front of the
registry until the requested number of contracts is satisfied, returning
the list of (writer, contracts taken) pairs and the remaining registry;
`none` signals an exhausted registry. -/
def consumeFront : Nat → List WriterEntry → Option (List (Nat × Nat) × List WriterEntry)
  | 0, l => some ([], l)
  | _+1, [] => none
  | k+1, e :: rest =>
      if e.contracts ≤ k + 1 then
        match consumeFront (k + 1 - e.contracts) rest with
        | some (tk, l') => some ((e.writer, e.contracts) :: tk, l')
        | none => none
      else
        some ([(e.writer, k + 1)],
          { writer := e.writer, contracts := e.contracts - (k + 1) } :: rest)

/-- Credit each writer of a taken list with the quote asset for the
contracts exercised against their entries. -/
def creditOwed (qpc : Nat) : List (Nat × Nat) → (Nat → Nat) → (Nat → Nat)
  | [], f => f
  | p :: rest, f => creditOwed qpc rest (updateFn f p.1 (f p.1 + p.2 * qpc))

/-- Modelled from the spec: `write` (spec section 4.2).  Fails with
`MarketExpired` once the current time reaches the expiration, with
`InvalidParameters` unless the deposit is a positive exact multiple of
`amount_per_contract`, and with `InsufficientFunds` when the writer's
underlying balance is short.  Otherwise it atomically moves the deposit
into the vault, mints option and writer tokens 1:1 with the contracts
written, and appends a WriterEntry to the registry. -/
def writeCoveredCall (now : Int) (st : MarketState) (w : Nat) (amt : Nat) :
    Except OptionsError MarketState :=
  if st.expiration ≤ now then .error .MarketExpired
  else if amt = 0 ∨ amt % st.amount_per_contract ≠ 0 then .error .InvalidParameters
  else if st.underlyingBal w < amt then .error .InsufficientFunds
  else
    .ok { st with
      underlyingBal := updateFn st.underlyingBal w (st.underlyingBal w - amt)
      vaultUnderlying := st.vaultUnderlying + amt
      optionBal := updateFn st.optionBal w
        (st.optionBal w + amt / st.amount_per_contract)
      optionSupply := st.optionSupply + amt / st.amount_per_contract
      writerTokenBal := updateFn st.writerTokenBal w
        (st.writerTokenBal w + amt / st.amount_per_contract)
      writerSupply := st.writerSupply + amt / st.amount_per_contract
      registry := st.registry ++
        [{ writer := w, contracts := amt / st.amount_per_contract }]
      contractsWritten := st.contractsWritten + amt / st.amount_per_contract }

/-- Modelled from the spec: `exercise` (spec section 4.2).  Requires the
current time to be strictly before expiration (fails with the
expired-kind error `NotYetExercisable` otherwise), the exerciser to hold
enough option tokens, and the exerciser's quote balance to cover the
payment.  Writer entries are consumed strictly FIFO from the front of the
registry.  Effects (atomic): burn the option tokens, move the quote
payment into the vault, release the underlying collateral from the vault
to the exerciser, and record the quote owed to the consumed writers. -/
def exerciseCoveredCall (now : Int) (st : MarketState) (ex : Nat) (k : Nat) :
    Except OptionsError MarketState :=
  if st.expiration ≤ now then .error .NotYetExercisable
  else if st.optionBal ex < k then .error .InsufficientOptionTokens
  else if st.quoteBal ex < k * quoteAmountPerContract st then .error .InsufficientQuoteAsset
  else
    match consumeFront k st.registry with
    | none => .error .NoEligibleWriters
    | some (tk, reg') =>
      .ok { st with
        optionBal := updateFn st.optionBal ex (st.optionBal ex - k)
        optionSupply := st.optionSupply - k
        quoteBal := updateFn st.quoteBal ex (st.quoteBal ex - k * quoteAmountPerContract st)
        vaultQuote := st.vaultQuote + k * quoteAmountPerContract st
        vaultUnderlying := st.vaultUnderlying - k * st.amount_per_contract
        underlyingBal := updateFn st.underlyingBal ex
          (st.underlyingBal ex + k * st.amount_per_contract)
        registry := reg'
        owedQuote := creditOwed (quoteAmountPerContract st) tk st.owedQuote
        contractsExercised := st.contractsExercised + k }

/-- Total contracts a given writer holds in the registry. -/
def sumContractsFor (w : Nat) : List WriterEntry → Nat
  | [] => 0
  | e :: r => (if e.writer = w then e.contracts else 0) + sumContractsFor w r

/-- Remove `n` contracts belonging to writer `w` from the registry, front
first, dropping entries whose count reaches zero. -/
def removeContractsFor (w : Nat) : Nat → List WriterEntry → List WriterEntry
  | _, [] => []
  | 0, l => l
  | n+1, e :: rest =>
      if e.writer = w then
        if e.contracts ≤ n + 1 then removeContractsFor w (n + 1 - e.contracts) rest
        else { writer := w, contracts := e.contracts - (n + 1) } :: rest
      else e :: removeContractsFor w (n + 1) rest

/-- Modelled from the spec: `redeem` (spec section 4.2).  Callable only
once the current time has reached expiration (fails with `NotYetExpired`
before), burns the writer's writer tokens capped by their remaining
registry contracts, releases the corresponding underlying collateral and
the quote asset accumulated from exercises against the writer's entries,
and fails with `NoRedeemableBalance` when nothing is outstanding. -/
def redeemCoveredCall (now : Int) (st : MarketState) (w : Nat) :
    Except OptionsError MarketState :=
  if now < st.expiration then .error .NotYetExpired
  else
    let n := min (st.writerTokenBal w) (sumContractsFor w st.registry)
    if n = 0 ∧ st.owedQuote w = 0 then .error .NoRedeemableBalance
    else
      .ok { st with
        writerTokenBal := updateFn st.writerTokenBal w (st.writerTokenBal w - n)
        writerSupply := st.writerSupply - n
        vaultUnderlying := st.vaultUnderlying - n * st.amount_per_contract
        underlyingBal := updateFn st.underlyingBal w
          (st.underlyingBal w + n * st.amount_per_contract)
        vaultQuote := st.vaultQuote - st.owedQuote w
        quoteBal := updateFn st.quoteBal w (st.quoteBal w + st.owedQuote w)
        owedQuote := updateFn st.owedQuote w 0
        registry := removeContractsFor w n st.registry }

/-- Modelled from the spec: an SPL-token transfer of option tokens
between accounts (external Token Ledger collaborator, spec section 6);
it moves balances and never changes the mint supply. -/
def transferOption (st : MarketState) (src dst n : Nat) : MarketState :=
  if n ≤ st.optionBal src then
    let f := updateFn st.optionBal src (st.optionBal src - n)
    { st with optionBal := updateFn f dst (f dst + n) }
  else st

/-- The state observed after attempting a write: the host applies the new
state on success and rolls back (keeps the old state) on error. -/
def runWrite (now : Int) (st : MarketState) (w amt : Nat) : MarketState :=
  match writeCoveredCall now st w amt with
  | .ok st' => st'
  | .error _ => st

/-- The state observed after attempting an exercise. -/
def runExercise (now : Int) (st : MarketState) (ex k : Nat) : MarketState :=
  match exerciseCoveredCall now st ex k with
  | .ok st' => st'
  | .error _ => st

/-- The state observed after attempting a redeem. -/
def runRedeem (now : Int) (st : MarketState) (w : Nat) : MarketState :=
  match redeemCoveredCall now st w with
  | .ok st' => st'
  | .error _ => st

/-- Modelled from the spec: the state of a freshly created market (spec
section 4.1): zero-balance vaults, empty registry, zero token supplies
and zero ghost counters; the underlying and quote asset ledgers are
external and may hold arbitrary pre-funded balances. -/
def MarketState.fresh (apc strike : Nat) (exp : Int) (ub qb : Nat → Nat) : MarketState :=
  { amount_per_contract := apc
    strike_price := strike
    expiration := exp
    optionSupply := 0
    writerSupply := 0
    vaultUnderlying := 0
    vaultQuote := 0
    registry := []
    underlyingBal := ub
    quoteBal := qb
    optionBal := fun _ => 0
    writerTokenBal := fun _ => 0
    owedQuote := fun _ => 0
    contractsWritten := 0
    contractsExercised := 0 }

/-- The identifying tuple of a market in the market store:
(underlying mint, quote mint, amount per contract, strike, expiration). -/
abbrev MarketKey : Type := Nat × Nat × Nat × Nat × Int

/-- A store of markets keyed by their identifying tuple. -/
abbrev MarketStore : Type := List (MarketKey × MarketState)

/-- Modelled from the spec: `create_market` (spec section 4.1).  Fails
with `InvalidParameters` if either per-contract amount is zero (the quote
amount per contract being `apc * strike`) or the expiration is not
strictly in the future, fails with `DuplicateMarket` when the identifying
tuple already exists, and otherwise appends a fresh zero-balance market. -/
def createMarket (store : MarketStore) (um qm apc strike : Nat) (exp now : Int) :
    Except OptionsError MarketStore :=
  if apc = 0 ∨ strike = 0 then .error .InvalidParameters
  else if exp ≤ now then .error .InvalidParameters
  else if (store.filter (fun p => decide (p.1 = (um, qm, apc, strike, exp)))).isEmpty = false then
    .error .DuplicateMarket
  else
    .ok (store ++ [((um, qm, apc, strike, exp),
      MarketState.fresh apc strike exp (fun _ => 0) (fun _ => 0))])

/-- The store observed after attempting a market creation. -/
def runCreateMarket (store : MarketStore) (um qm apc strike : Nat) (exp now : Int) :
    MarketStore :=
  match createMarket store um qm apc strike exp now with
  | .ok s => s
  | .error _ => store

/-- Shallow embedding of the `OptionMarket` account of
`programs/psy_american/src/lib.rs` (Pubkeys are modelled as natural
identifiers, `u64` fields as `Nat`, the `i64` timestamp as `Int`). -/
structure OptionMarketRec where
  option_mint : Nat
  writer_token_mint : Nat
  underlying_asset_mint : Nat
  quote_asset_mint : Nat
  underlying_amount_per_contract : Nat
  quote_amount_per_contract : Nat
  expiration_unix_timestamp : Int
  underlying_asset_pool : Nat
  quote_asset_pool : Nat
  mint_fee_account : Nat
  exercise_fee_account : Nat
  bump_seed : Nat
  initialized : Bool
  deriving DecidableEq, Repr

/-- The `derive(Default)` value of `OptionMarket`: all fields zero and
`initialized = false`; a freshly allocated account starts in this state. -/
def OptionMarketRec.defaultRec : OptionMarketRec :=
  { option_mint := 0
    writer_token_mint := 0
    underlying_asset_mint := 0
    quote_asset_mint := 0
    underlying_amount_per_contract := 0
    quote_amount_per_contract := 0
    expiration_unix_timestamp := 0
    underlying_asset_pool := 0
    quote_asset_pool := 0
    mint_fee_account := 0
    exercise_fee_account := 0
    bump_seed := 0
    initialized := false }

/-- Shallow embedding of the `initialize_market` handler of
`programs/psy_american/src/lib.rs`: its body is exactly `Ok(())`; it
reads none of its instruction arguments and writes no field of the
option-market account, which is returned unchanged. -/
def initialize_market (m : OptionMarketRec) (uapc qapc : Nat) (exp : Int)
    (bump : Nat) : Except OptionsError OptionMarketRec :=
  let _ := uapc
  let _ := qapc
  let _ := exp
  let _ := bump
  .ok m

/-- Little-endian byte encoding of a `u64`, as Rust `to_le_bytes`. -/
def u64ToLeBytes (n : Nat) : List Nat :=
  (List.range 8).map (fun i => n / 256 ^ i % 256)

/-- Little-endian two's-complement byte encoding of an `i64`, as Rust
`to_le_bytes`. -/
def i64ToLeBytes (x : Int) : List Nat :=
  u64ToLeBytes (x.emod (2 ^ 64)).toNat

/-- Shallow embedding of the PDA seeds of the `option_market` account in
`InitializeMarket` (`programs/psy_american/src/lib.rs`): the underlying
mint key, the quote mint key, and the little-endian bytes of the two
per-contract amounts and the expiration timestamp.  Mint keys are
modelled as their 32-byte contents. -/
def marketSeeds (umint qmint : List Nat) (uapc qapc : Nat) (exp : Int) :
    List (List Nat) :=
  [umint, qmint, u64ToLeBytes uapc, u64ToLeBytes qapc, i64ToLeBytes exp]

/-- A concrete deterministic stand-in for the host's address-derivation
hash over the seeds (the real SHA256-based derivation lives in the host
runtime). -/
def seedHash (s : List (List Nat)) : Nat :=
  (s.map (fun l => l.foldl (fun a b => a * 257 + b + 1) 7)).foldl
    (fun a b => a * 1000003 + b) 0

/-- The all-zero ledger. -/
def zeroLedger : Nat → Nat := fun _ => 0

/-- Underlying-asset funding of the scenario writers: accounts 1 and 2
each hold twice the amount per contract, as minted by the test helper. -/
def scenarioFundU : Nat → Nat := fun a => if a = 1 ∨ a = 2 then 200 else 0

/-- Quote-asset funding of the scenario exerciser: account 3 holds the
quote amount needed to exercise one contract. -/
def scenarioFundQ : Nat → Nat := fun a => if a = 3 then 500 else 0

/-- The scenario market of the successful-exercise integration test:
amount per contract 100, strike price 5, far-future expiration. -/
def market0 : MarketState :=
  MarketState.fresh 100 5 999999999999999999 scenarioFundU scenarioFundQ

/-- Scenario state after writer 1 writes one contract. -/
def st1 : MarketState := runWrite 1 market0 1 100

/-- Scenario state after writer 2 also writes one contract. -/
def st2 : MarketState := runWrite 2 st1 2 100

/-- Scenario state after writer 1 transfers their option token to the
exerciser (account 3), as the test helper moves the option token to the
exercising party. -/
def st2t : MarketState := transferOption st2 1 3 1

/-- Scenario state after the exerciser exercises one contract. -/
def st3 : MarketState := runExercise 3 st2t 3 1

/-- The expired-market scenario: same market and participants, but the
expiration is 30 time-units after creation (time 0). -/
def marketE : MarketState :=
  MarketState.fresh 100 5 30 scenarioFundU scenarioFundQ

/-- Expired scenario after writer 1 writes one contract at time 1. -/
def stE1 : MarketState := runWrite 1 marketE 1 100

/-- Expired scenario after writer 2 writes one contract at time 2. -/
def stE2 : MarketState := runWrite 2 stE1 2 100

/-- Expired scenario after writer 1 moves their option token to the
exerciser. -/
def stE2t : MarketState := transferOption stE2 1 3 1

/-- A market whose expiration equals 10, used at the boundary instant. -/
def stBoundary : MarketState := MarketState.fresh 100 5 10 zeroLedger zeroLedger

/-- The bookkeeping invariant of a market state (spec sections 3 and 8):
the option supply and the registry contract total both equal the
contracts written but not yet exercised, the underlying vault holds
exactly the collateral for those contracts, and the quote vault holds
exactly the payments for the exercised contracts. -/
structure MarketInv (st : MarketState) : Prop where
  apc_pos : 0 < st.amount_per_contract
  ex_le : st.contractsExercised ≤ st.contractsWritten
  supply_eq : st.optionSupply = st.contractsWritten - st.contractsExercised
  registry_eq : sumContracts st.registry =
    st.contractsWritten - st.contractsExercised
  vaultU_eq : st.vaultUnderlying =
    st.amount_per_contract * (st.contractsWritten - st.contractsExercised)
  vaultQ_eq : st.vaultQuote = quoteAmountPerContract st * st.contractsExercised

/-- The market states reachable from a freshly created market (spec
section 4.1 requires both per-contract amounts positive at creation) by
any sequence of successful writes, successful exercises, and external
option-token transfers. -/
inductive Reachable : MarketState → Prop
  | created {apc strike : Nat} {exp : Int} {ub qb : Nat → Nat} :
      0 < apc → 0 < strike → Reachable (MarketState.fresh apc strike exp ub qb)
  | wrote {now : Int} {w amt : Nat} {st st' : MarketState} :
      Reachable st → writeCoveredCall now st w amt = .ok st' → Reachable st'
  | exercised {now : Int} {ex k : Nat} {st st' : MarketState} :
      Reachable st → exerciseCoveredCall now st ex k = .ok st' → Reachable st'
  | moved {src dst n : Nat} {st : MarketState} :
      Reachable st → Reachable (transferOption st src dst n)

/-- The option-supply bookkeeping invariant that survives the complete
lifecycle, redeems included: the option supply equals the open-contract
count (contracts written but not yet exercised) and the registry never
records more contracts than are open (a redeem may remove entries
without an exercise, so only the inequality is lifecycle-stable). -/
structure SupplyInv (st : MarketState) : Prop where
  ex_le : st.contractsExercised ≤ st.contractsWritten
  supply_eq : st.optionSupply = st.contractsWritten - st.contractsExercised
  reg_le : sumContracts st.registry ≤
    st.contractsWritten - st.contractsExercised

/-- The market states reachable from a freshly created market by any
sequence of successful writes, exercises, redeems and external
option-token transfers: the complete lifecycle of spec section 4.2. -/
inductive ReachableAll : MarketState → Prop
  | created {apc strike : Nat} {exp : Int} {ub qb : Nat → Nat} :
      0 < apc → 0 < strike →
      ReachableAll (MarketState.fresh apc strike exp ub qb)
  | wrote {now : Int} {w amt : Nat} {st st' : MarketState} :
      ReachableAll st → writeCoveredCall now st w amt = .ok st' →
      ReachableAll st'
  | exercised {now : Int} {ex k : Nat} {st st' : MarketState} :
      ReachableAll st → exerciseCoveredCall now st ex k = .ok st' →
      ReachableAll st'
  | redeemed {now : Int} {w : Nat} {st st' : MarketState} :
      ReachableAll st → redeemCoveredCall now st w = .ok st' →
      ReachableAll st'
  | moved {src dst n : Nat} {st : MarketState} :
      ReachableAll st → ReachableAll (transferOption st src dst n)

/-- Expired scenario after writer 1 redeems at time 50 (past expiry). -/
def stE3 : MarketState := runRedeem 50 stE2t 1

/-- C2: in the market with amount per contract 100 and strike 5, after two
writers each write 1 contract (option supply 2), exercising 1 contract
drawn from registry index 0 leaves option supply 1, shrinks the registry
by one entry (the index-0 entry is gone), decreases the underlying vault
by 100, credits the exerciser's underlying account with 100, and debits
the exerciser's quote account by 100 * 5 = 500. -/
theorem exercise_scenario_exact_effects :
    st2t.optionSupply = 2 ∧
    exerciseCoveredCall 3 st2t 3 1 = .ok st3 ∧
    st3.optionSupply = 1 ∧
    st3.registry.length = st2t.registry.length - 1 ∧
    st3.registry = [{ writer := 2, contracts := 1 }] ∧
    st3.vaultUnderlying + 100 = st2t.vaultUnderlying ∧
    st3.underlyingBal 3 = st2t.underlyingBal 3 + 100 ∧
    st3.quoteBal 3 + 100 * 5 = st2t.quoteBal 3 :=
  ⟨rfl, rfl, rfl, rfl, rfl, rfl, rfl, rfl⟩

/-- C7: with the expiration set 30 time-units after market creation and
the exercise attempted past expiry (20 time-units after the expiration,
at time 50), the exercise fails with the expired-kind error and the state
is unchanged. -/
theorem scenario_expired_exercise_fails :
    exerciseCoveredCall 50 stE2t 3 1 = .error .NotYetExercisable ∧
    runExercise 50 stE2t 3 1 = stE2t :=
  ⟨rfl, rfl⟩

/-- C4 (failing-input evaluation): the `initialize_market` handler, run
on the invalid input with both per-contract amounts zero and a past
expiration, still returns success and leaves the freshly allocated
market record untouched, its `initialized` flag remaining `false`. -/
theorem initialize_market_stub_at_invalid_inputs :
    initialize_market OptionMarketRec.defaultRec 0 0 (-1) 0 =
      .ok OptionMarketRec.defaultRec ∧
    OptionMarketRec.defaultRec.initialized = false :=
  ⟨rfl, rfl⟩

/-- C10: for every input, including zero per-contract amounts and a past
expiration, the `initialize_market` handler returns `Ok` and writes no
field of the market record, so a record starting at its `Default` value
keeps `initialized = false` after the call. -/
theorem initialize_market_is_noop (m : OptionMarketRec) (uapc qapc : Nat)
    (exp : Int) (bump : Nat) :
    initialize_market m uapc qapc exp bump = .ok m ∧
    OptionMarketRec.defaultRec.initialized = false :=
  ⟨rfl, rfl⟩

/-- C9: the market-identity seeds are a deterministic function of the
tuple (underlying mint, quote mint, underlying amount per contract,
quote amount per contract, expiration): any address-derivation function
applied to the seeds of equal tuples yields equal market identifiers. -/
theorem market_id_deterministic (derive : List (List Nat) → Nat)
    (u1 q1 : List Nat) (a1 b1 : Nat) (e1 : Int)
    (u2 q2 : List Nat) (a2 b2 : Nat) (e2 : Int)
    (hu : u1 = u2) (hq : q1 = q2) (ha : a1 = a2) (hb : b1 = b2)
    (he : e1 = e2) :
    derive (marketSeeds u1 q1 a1 b1 e1) = derive (marketSeeds u2 q2 a2 b2 e2) := by
  subst hu hq ha hb he
  rfl

/-- Witness for C9 at a concrete tuple, with the stand-in hash as the
derivation function. -/
theorem market_id_deterministic_w :
    seedHash (marketSeeds [1, 2] [3, 4] 100 5 30) =
      seedHash (marketSeeds [1, 2] [3, 4] 100 5 30) :=
  market_id_deterministic seedHash [1, 2] [3, 4] 100 5 30 [1, 2] [3, 4] 100 5 30
    rfl rfl rfl rfl rfl

/-- C1: for every market state, exerciser and amount, once the current
time has reached the market's expiration the exercise fails with the
expired-kind error `NotYetExercisable` and the observed state (balances,
vaults and writer registry) is exactly the state before the call;
equivalently, exercise returns success only when the current time is
strictly before the expiration. -/
theorem exercise_after_expiry_fails (now : Int) (st : MarketState) (ex k : Nat) :
    (st.expiration ≤ now →
      exerciseCoveredCall now st ex k = .error .NotYetExercisable ∧
      runExercise now st ex k = st) ∧
    (∀ st', exerciseCoveredCall now st ex k = .ok st' → now < st.expiration) := by
  constructor
  · intro h
    have hx : exerciseCoveredCall now st ex k = .error .NotYetExercisable := by
      unfold exerciseCoveredCall
      simp [h]
    refine ⟨hx, ?_⟩
    unfold runExercise
    rw [hx]
  · intro st' h
    by_cases hle : st.expiration ≤ now
    · exfalso
      unfold exerciseCoveredCall at h
      simp [hle] at h
    · exact lt_of_not_le hle

/-- Witness for C1 at the boundary instant: a market expiring at time 10,
exercised exactly at time 10, fails with the expired-kind error and the
state is unchanged. -/
theorem exercise_after_expiry_fails_w :
    exerciseCoveredCall 10 stBoundary 1 1 = .error .NotYetExercisable ∧
    runExercise 10 stBoundary 1 1 = stBoundary :=
  (exercise_after_expiry_fails 10 stBoundary 1 1).1 (by decide)

/-- C8: every lifecycle operation is atomic.  Each operation is a single
transaction returning either a fully-updated state or an error carrying
no mutation; whenever an operation returns an error, the observed state
(every balance, vault and registry) is exactly the state before the
call, and an error during market creation leaves the market store
unchanged. -/
theorem lifecycle_ops_atomic :
    (∀ (now : Int) (st : MarketState) (w amt : Nat) (e : OptionsError),
      writeCoveredCall now st w amt = .error e → runWrite now st w amt = st) ∧
    (∀ (now : Int) (st : MarketState) (ex k : Nat) (e : OptionsError),
      exerciseCoveredCall now st ex k = .error e → runExercise now st ex k = st) ∧
    (∀ (now : Int) (st : MarketState) (w : Nat) (e : OptionsError),
      redeemCoveredCall now st w = .error e → runRedeem now st w = st) ∧
    (∀ (store : MarketStore) (um qm apc strike : Nat) (exp now : Int)
      (e : OptionsError), createMarket store um qm apc strike exp now = .error e →
      runCreateMarket store um qm apc strike exp now = store) := by
  refine ⟨?_, ?_, ?_, ?_⟩
  · intro now st w amt e h
    unfold runWrite
    rw [h]
  · intro now st ex k e h
    unfold runExercise
    rw [h]
  · intro now st w e h
    unfold runRedeem
    rw [h]
  · intro store um qm apc strike exp now e h
    unfold runCreateMarket
    rw [h]

/-- Witness for C8: concrete erroring calls of all four operations (an
expired write, an expired exercise, a premature redeem, and a creation
with a zero per-contract amount) leave their states unchanged. -/
theorem lifecycle_ops_atomic_w :
    runWrite 50 stE2t 1 100 = stE2t ∧
    runExercise 50 stE2t 3 1 = stE2t ∧
    runRedeem 1 st2t 1 = st2t ∧
    runCreateMarket [] 7 8 0 5 99 0 = [] :=
  ⟨lifecycle_ops_atomic.1 50 stE2t 1 100 .MarketExpired rfl,
   lifecycle_ops_atomic.2.1 50 stE2t 3 1 .NotYetExercisable rfl,
   lifecycle_ops_atomic.2.2.1 1 st2t 1 .NotYetExpired rfl,
   lifecycle_ops_atomic.2.2.2 [] 7 8 0 5 99 0 .InvalidParameters rfl⟩

theorem sumContracts_append (l1 l2 : List WriterEntry) :
    sumContracts (l1 ++ l2) = sumContracts l1 + sumContracts l2 := by
  induction l1 with
  | nil => simp [sumContracts]
  | cons e r ih => simp [sumContracts, ih]; omega

theorem consumeFront_sum : ∀ (l : List WriterEntry) (k : Nat)
    (tk : List (Nat × Nat)) (l' : List WriterEntry),
    consumeFront k l = some (tk, l') →
    k ≤ sumContracts l ∧ sumContracts l' = sumContracts l - k := by
  intro l
  induction l with
  | nil =>
    intro k tk l' h
    cases k with
    | zero =>
      simp only [consumeFront, Option.some.injEq, Prod.mk.injEq] at h
      rw [← h.2]
      simp
    | succ n => simp [consumeFront] at h
  | cons e rest ih =>
    intro k tk l' h
    cases k with
    | zero =>
      simp only [consumeFront, Option.some.injEq, Prod.mk.injEq] at h
      rw [← h.2]
      simp
    | succ n =>
      simp only [consumeFront] at h
      split at h
      · rename_i hc
        cases hm : consumeFront (n + 1 - e.contracts) rest with
        | none => rw [hm] at h; cases h
        | some p =>
          rw [hm] at h
          obtain ⟨tk0, l0⟩ := p
          simp only [Option.some.injEq, Prod.mk.injEq] at h
          obtain ⟨h1, h2⟩ := h
          subst h2
          have hr := ih (n + 1 - e.contracts) tk0 l0 hm
          simp only [sumContracts]
          omega
      · rename_i hc
        simp only [Option.some.injEq, Prod.mk.injEq] at h
        obtain ⟨h1, h2⟩ := h
        rw [← h2]
        simp only [sumContracts]
        omega

theorem consumeFront_fifo : ∀ (l : List WriterEntry) (k : Nat)
    (tk : List (Nat × Nat)) (l' : List WriterEntry),
    consumeFront k l = some (tk, l') →
    ∃ p r d, l = p ++ r ∧ sumContracts p + d = k ∧
      ((d = 0 ∧ l' = r) ∨
       ∃ e t, r = e :: t ∧ 0 < d ∧ d < e.contracts ∧
         l' = { writer := e.writer, contracts := e.contracts - d } :: t) := by
  intro l
  induction l with
  | nil =>
    intro k tk l' h
    cases k with
    | zero =>
      simp only [consumeFront, Option.some.injEq, Prod.mk.injEq] at h
      exact ⟨[], [], 0, rfl, rfl, Or.inl ⟨rfl, h.2.symm⟩⟩
    | succ n => simp [consumeFront] at h
  | cons e rest ih =>
    intro k tk l' h
    cases k with
    | zero =>
      simp only [consumeFront, Option.some.injEq, Prod.mk.injEq] at h
      exact ⟨[], e :: rest, 0, rfl, rfl, Or.inl ⟨rfl, h.2.symm⟩⟩
    | succ n =>
      simp only [consumeFront] at h
      split at h
      · rename_i hc
        cases hm : consumeFront (n + 1 - e.contracts) rest with
        | none => rw [hm] at h; cases h
        | some p =>
          rw [hm] at h
          obtain ⟨tk0, l0⟩ := p
          simp only [Option.some.injEq, Prod.mk.injEq] at h
          obtain ⟨h1, h2⟩ := h
          subst h2
          obtain ⟨p, r, d, hl, hs, hd⟩ := ih (n + 1 - e.contracts) tk0 l0 hm
          refine ⟨e :: p, r, d, ?_, ?_, hd⟩
          · rw [List.cons_append, hl]
          · simp only [sumContracts]
            clear hd hl
            omega
      · rename_i hc
        simp only [Option.some.injEq, Prod.mk.injEq] at h
        obtain ⟨h1, h2⟩ := h
        refine ⟨[], e :: rest, n + 1, rfl, by simp [sumContracts], Or.inr ?_⟩
        exact ⟨e, rest, rfl, Nat.succ_pos n, by omega, h2.symm⟩

theorem exercise_ok_consume {now : Int} {st : MarketState} {ex k : Nat}
    {st' : MarketState} (h : exerciseCoveredCall now st ex k = .ok st') :
    ∃ tk, consumeFront k st.registry = some (tk, st'.registry) ∧
      st'.optionSupply = st.optionSupply - k ∧
      st'.vaultQuote = st.vaultQuote + k * quoteAmountPerContract st ∧
      st'.vaultUnderlying = st.vaultUnderlying - k * st.amount_per_contract ∧
      st'.contractsWritten = st.contractsWritten ∧
      st'.contractsExercised = st.contractsExercised + k ∧
      st'.amount_per_contract = st.amount_per_contract ∧
      st'.strike_price = st.strike_price := by
  unfold exerciseCoveredCall at h
  split at h
  · cases h
  split at h
  · cases h
  split at h
  · cases h
  cases hm : consumeFront k st.registry with
  | none => rw [hm] at h; cases h
  | some p =>
    rw [hm] at h
    obtain ⟨tk, reg'⟩ := p
    injection h with h
    subst h
    exact ⟨tk, rfl, rfl, rfl, rfl, rfl, rfl, rfl, rfl⟩

theorem inv_fresh (apc strike : Nat) (exp : Int) (ub qb : Nat → Nat)
    (h : 0 < apc) : MarketInv (MarketState.fresh apc strike exp ub qb) := by
  refine ⟨h, ?_, ?_, ?_, ?_, ?_⟩ <;>
    simp [MarketState.fresh, sumContracts, quoteAmountPerContract]

theorem nat_mul_sub_swap (a m j : Nat) : a * m - j * a = a * (m - j) := by
  rw [Nat.mul_sub, Nat.mul_comm j a]

theorem inv_write {now : Int} {st : MarketState} {w amt : Nat}
    {st' : MarketState} (hinv : MarketInv st)
    (h : writeCoveredCall now st w amt = .ok st') : MarketInv st' := by
  unfold writeCoveredCall at h
  split at h
  · cases h
  · split at h
    · cases h
    · split at h
      · cases h
      · have h2 := ‹¬(amt = 0 ∨ amt % st.amount_per_contract ≠ 0)›
        injection h with h
        subst h
        push_neg at h2
        obtain ⟨hne, hmod⟩ := h2
        have hamt : st.amount_per_contract * (amt / st.amount_per_contract) = amt :=
          Nat.mul_div_cancel' (Nat.dvd_of_mod_eq_zero hmod)
        have hle := hinv.ex_le
        constructor
        · exact hinv.apc_pos
        · exact le_trans hinv.ex_le (Nat.le_add_right _ _)
        · show st.optionSupply + amt / st.amount_per_contract =
            st.contractsWritten + amt / st.amount_per_contract -
              st.contractsExercised
          rw [hinv.supply_eq]
          generalize amt / st.amount_per_contract = c
          omega
        · show sumContracts (st.registry ++
              [{ writer := w, contracts := amt / st.amount_per_contract }]) =
            st.contractsWritten + amt / st.amount_per_contract -
              st.contractsExercised
          rw [sumContracts_append]
          simp only [sumContracts]
          rw [hinv.registry_eq]
          generalize amt / st.amount_per_contract = c
          omega
        · show st.vaultUnderlying + amt =
            st.amount_per_contract *
              (st.contractsWritten + amt / st.amount_per_contract -
                st.contractsExercised)
          rw [hinv.vaultU_eq]
          have hWE : st.contractsWritten + amt / st.amount_per_contract -
              st.contractsExercised =
              (st.contractsWritten - st.contractsExercised) +
                amt / st.amount_per_contract := by
            generalize amt / st.amount_per_contract = c
            omega
          rw [hWE, Nat.mul_add, hamt]
        · exact hinv.vaultQ_eq

theorem inv_exercise {now : Int} {st : MarketState} {ex k : Nat}
    {st' : MarketState} (hinv : MarketInv st)
    (h : exerciseCoveredCall now st ex k = .ok st') : MarketInv st' := by
  obtain ⟨tk, hm, hsup, hvq, hvu, hw, he, hapc, hstrike⟩ := exercise_ok_consume h
  obtain ⟨hk, hsum⟩ := consumeFront_sum _ _ _ _ hm
  have hreg := hinv.registry_eq
  have hle := hinv.ex_le
  have hk2 : k ≤ st.contractsWritten - st.contractsExercised := hreg ▸ hk
  have hq : quoteAmountPerContract st' = quoteAmountPerContract st := by
    unfold quoteAmountPerContract
    rw [hapc, hstrike]
  constructor
  · rw [hapc]
    exact hinv.apc_pos
  · rw [he, hw]
    omega
  · rw [hsup, he, hw, hinv.supply_eq]
    omega
  · rw [hsum, hreg, he, hw]
    omega
  · rw [hvu, hapc, he, hw, hinv.vaultU_eq]
    have hWE : st.contractsWritten - (st.contractsExercised + k) =
        (st.contractsWritten - st.contractsExercised) - k := by omega
    rw [hWE]
    exact nat_mul_sub_swap _ _ _
  · rw [hvq, he, hq, hinv.vaultQ_eq]
    ring

theorem inv_moved {st : MarketState} (hinv : MarketInv st) (src dst n : Nat) :
    MarketInv (transferOption st src dst n) := by
  unfold transferOption
  split
  · exact ⟨hinv.apc_pos, hinv.ex_le, hinv.supply_eq, hinv.registry_eq,
      hinv.vaultU_eq, hinv.vaultQ_eq⟩
  · exact hinv

theorem reachable_inv {st : MarketState} (h : Reachable st) : MarketInv st := by
  induction h with
  | created h1 h2 => exact inv_fresh _ _ _ _ _ h1
  | wrote hr hw ih => exact inv_write ih hw
  | exercised hr hx ih => exact inv_exercise ih hx
  | moved hr ih => exact inv_moved ih _ _ _

/-- C3: whenever an exercise of `k` contracts succeeds, the writer
registry is consumed strictly FIFO: the earliest-inserted entries form a
fully consumed prefix that is removed from the registry, and any
remainder `d` of the `k` contracts is drawn from the next entry in
insertion order, which survives with its contract count reduced by `d`. -/
theorem exercise_fifo_consumption (now : Int) (st : MarketState) (ex k : Nat)
    (st' : MarketState) (h : exerciseCoveredCall now st ex k = .ok st') :
    ∃ p r d, st.registry = p ++ r ∧ sumContracts p + d = k ∧
      ((d = 0 ∧ st'.registry = r) ∨
       ∃ e t, r = e :: t ∧ 0 < d ∧ d < e.contracts ∧
         st'.registry = { writer := e.writer, contracts := e.contracts - d } :: t) := by
  obtain ⟨tk, hm, _⟩ := exercise_ok_consume h
  exact consumeFront_fifo st.registry k tk st'.registry hm

/-- Witness for C3: in the two-writer scenario, exercising one contract
consumes exactly the earliest-inserted entry. -/
theorem exercise_fifo_consumption_w :
    ∃ p r d, st2t.registry = p ++ r ∧ sumContracts p + d = 1 ∧
      ((d = 0 ∧ st3.registry = r) ∨
       ∃ e t, r = e :: t ∧ 0 < d ∧ d < e.contracts ∧
         st3.registry = { writer := e.writer, contracts := e.contracts - d } :: t) :=
  exercise_fifo_consumption 3 st2t 3 1 st3 rfl

theorem sumContracts_remove_le (w : Nat) : ∀ (n : Nat) (l : List WriterEntry),
    sumContracts (removeContractsFor w n l) ≤ sumContracts l := by
  intro n l
  induction l generalizing n with
  | nil => cases n <;> simp [removeContractsFor]
  | cons e rest ih =>
    cases n with
    | zero => simp [removeContractsFor]
    | succ m =>
      simp only [removeContractsFor]
      split
      · split
        · have h1 := ih (m + 1 - e.contracts)
          simp only [sumContracts]
          omega
        · simp only [sumContracts]
          omega
      · simp only [sumContracts]
        have h1 := ih (m + 1)
        omega

theorem redeem_ok_fields {now : Int} {st : MarketState} {w : Nat}
    {st' : MarketState} (h : redeemCoveredCall now st w = .ok st') :
    st'.optionSupply = st.optionSupply ∧
    st'.contractsWritten = st.contractsWritten ∧
    st'.contractsExercised = st.contractsExercised ∧
    st'.registry = removeContractsFor w
      (min (st.writerTokenBal w) (sumContractsFor w st.registry)) st.registry := by
  unfold redeemCoveredCall at h
  split at h
  · cases h
  · dsimp only at h
    split at h
    · cases h
    · injection h with h
      subst h
      exact ⟨rfl, rfl, rfl, rfl⟩

theorem supplyInv_fresh (apc strike : Nat) (exp : Int) (ub qb : Nat → Nat) :
    SupplyInv (MarketState.fresh apc strike exp ub qb) := by
  refine ⟨?_, ?_, ?_⟩ <;> simp [MarketState.fresh, sumContracts]

theorem supplyInv_write {now : Int} {st : MarketState} {w amt : Nat}
    {st' : MarketState} (hinv : SupplyInv st)
    (h : writeCoveredCall now st w amt = .ok st') : SupplyInv st' := by
  unfold writeCoveredCall at h
  split at h
  · cases h
  · split at h
    · cases h
    · split at h
      · cases h
      · injection h with h
        subst h
        have hle := hinv.ex_le
        have hs := hinv.supply_eq
        have hr := hinv.reg_le
        constructor
        · exact le_trans hinv.ex_le (Nat.le_add_right _ _)
        · show st.optionSupply + amt / st.amount_per_contract =
            st.contractsWritten + amt / st.amount_per_contract -
              st.contractsExercised
          generalize amt / st.amount_per_contract = c
          omega
        · show sumContracts (st.registry ++
              [{ writer := w, contracts := amt / st.amount_per_contract }]) ≤
            st.contractsWritten + amt / st.amount_per_contract -
              st.contractsExercised
          rw [sumContracts_append]
          simp only [sumContracts]
          generalize amt / st.amount_per_contract = c
          omega

theorem supplyInv_exercise {now : Int} {st : MarketState} {ex k : Nat}
    {st' : MarketState} (hinv : SupplyInv st)
    (h : exerciseCoveredCall now st ex k = .ok st') : SupplyInv st' := by
  obtain ⟨tk, hm, hsup, hvq, hvu, hw, he, hapc, hstrike⟩ := exercise_ok_consume h
  obtain ⟨hk, hsum⟩ := consumeFront_sum _ _ _ _ hm
  have hle := hinv.ex_le
  have hs := hinv.supply_eq
  have hr := hinv.reg_le
  constructor
  · rw [he, hw]
    omega
  · rw [hsup, he, hw, hs]
    omega
  · rw [hsum, he, hw]
    omega

theorem supplyInv_redeem {now : Int} {st : MarketState} {w : Nat}
    {st' : MarketState} (hinv : SupplyInv st)
    (h : redeemCoveredCall now st w = .ok st') : SupplyInv st' := by
  obtain ⟨ho, hwr, hex, hreg⟩ := redeem_ok_fields h
  have hrem := sumContracts_remove_le w
    (min (st.writerTokenBal w) (sumContractsFor w st.registry)) st.registry
  constructor
  · rw [hex, hwr]
    exact hinv.ex_le
  · rw [ho, hwr, hex]
    exact hinv.supply_eq
  · rw [hreg, hwr, hex]
    exact le_trans hrem hinv.reg_le

theorem supplyInv_moved {st : MarketState} (hinv : SupplyInv st)
    (src dst n : Nat) : SupplyInv (transferOption st src dst n) := by
  unfold transferOption
  split
  · exact ⟨hinv.ex_le, hinv.supply_eq, hinv.reg_le⟩
  · exact hinv

theorem reachableAll_supplyInv {st : MarketState} (h : ReachableAll st) :
    SupplyInv st := by
  induction h with
  | created h1 h2 => exact supplyInv_fresh _ _ _ _ _
  | wrote hr hw ih => exact supplyInv_write ih hw
  | exercised hr hx ih => exact supplyInv_exercise ih hx
  | redeemed hr hd ih => exact supplyInv_redeem ih hd
  | moved hr ih => exact supplyInv_moved ih _ _ _

/-- C5: in every reachable market state — reached by any sequence of
successful writes, exercises, redeems and token transfers from a fresh
market — the option-token supply equals the number of contracts written
but not yet exercised: writes mint option and writer tokens 1:1 with
contracts written, each exercise burns exactly the exercised number of
option tokens, and no other lifecycle operation touches the supply. -/
theorem option_supply_counts_open_contracts (st : MarketState)
    (h : ReachableAll st) :
    st.optionSupply = st.contractsWritten - st.contractsExercised ∧
    st.contractsExercised ≤ st.contractsWritten :=
  ⟨(reachableAll_supplyInv h).supply_eq, (reachableAll_supplyInv h).ex_le⟩

/-- Witness for C5 at a concrete state whose history spans the whole
lifecycle: two writes, a transfer, and a post-expiry redeem. -/
theorem option_supply_counts_open_contracts_w :
    stE3.optionSupply = stE3.contractsWritten - stE3.contractsExercised ∧
    stE3.contractsExercised ≤ stE3.contractsWritten :=
  option_supply_counts_open_contracts stE3
    (@ReachableAll.redeemed 50 1 stE2t stE3
      (@ReachableAll.moved 1 3 1 stE2
        (@ReachableAll.wrote 2 2 100 stE1 stE2
          (@ReachableAll.wrote 1 1 100 marketE stE1
            (ReachableAll.created (by decide) (by decide)) rfl) rfl)) rfl)

/-- C6: in every market state reachable by valid writes and exercises
(and token transfers), the underlying vault balance equals the amount
per contract times the outstanding registry contract total (equivalently
that total is the vault balance divided by the amount per contract), and
the quote vault balance equals the quote amount per contract times the
exercised-but-not-yet-redeemed contract count. -/
theorem vault_balances_invariant (st : MarketState) (h : Reachable st) :
    st.vaultUnderlying = st.amount_per_contract * sumContracts st.registry ∧
    sumContracts st.registry = st.vaultUnderlying / st.amount_per_contract ∧
    st.vaultQuote = quoteAmountPerContract st * st.contractsExercised := by
  have hinv := reachable_inv h
  refine ⟨?_, ?_, hinv.vaultQ_eq⟩
  · rw [hinv.vaultU_eq, hinv.registry_eq]
  · rw [hinv.vaultU_eq, hinv.registry_eq, Nat.mul_div_cancel_left _ hinv.apc_pos]

/-- Witness for C6 at the concrete scenario state after two writes, a
transfer and one exercise. -/
theorem vault_balances_invariant_w :
    st3.vaultUnderlying = st3.amount_per_contract * sumContracts st3.registry ∧
    sumContracts st3.registry = st3.vaultUnderlying / st3.amount_per_contract ∧
    st3.vaultQuote = quoteAmountPerContract st3 * st3.contractsExercised :=
  vault_balances_invariant st3
    (@Reachable.exercised 3 3 1 st2t st3
      (@Reachable.moved 1 3 1 st2
        (@Reachable.wrote 2 2 100 st1 st2
          (@Reachable.wrote 1 1 100 market0 st1
            (Reachable.created (by decide) (by decide)) rfl) rfl)) rfl)
